import Mathlib

/-!
# Verification of `srcstr` (`src/lib.rs`)

`SrcStr` is a provenance-tracking string view: a shared-ownership handle
(`rc : Rc<String>`) to an immutable text buffer, plus a raw fat pointer
(`ptr : *const str`) to the text currently in view.  The view ordinarily
points inside the owner's buffer but may be reassigned (via `edit`) to an
unrelated string.

Embedding choices:
* Bytes of all live strings sit in an ambient immutable memory
  `Mem : Nat → Nat` (address to byte value).  The owner's buffer is never
  mutated after construction (spec §3 invariant), so a single fixed memory
  suffices; string literals assigned by `edit` also live somewhere in it.
* A `SrcStr` carries the address of its `Rc` allocation (`rcAddr`, what
  `Rc::as_ptr` returns and what `PartialEq`/`Hash` use), the address of the
  owner's byte buffer (`bufAddr`, what `range` compares against), the
  owner's byte content (`rcData`, the content of the immutable allocation at
  `bufAddr`), and the fat view pointer as `ptrAddr`/`ptrLen` (a `*const str`
  compares and hashes as the pair of data address and length metadata).
* Rust string slicing `&s[a..b]` panics unless `a <= b` and both ends are
  UTF-8 char boundaries; the fallible operations (`sub`, `src_sub`) return
  `Option` here, `none` standing for the panic.
* `&mut self` methods (`edit`, `try_run`, `try_edit`) are state passing:
  they return the updated receiver.  The caller-supplied closures are
  arbitrary functions: for `edit` a function from the current view
  descriptor to the final one (all a closure can do to the `&mut &str` slot
  is leave some final slice in it), for `try_run` an arbitrary transformer
  of the whole `SrcStr`.
-/

namespace Srcstr

/-- Ambient byte memory: maps an address to the byte stored there. -/
abbrev Mem := Nat → Nat

/-- Read `len` consecutive bytes starting at `addr`. -/
def readBytes (mem : Mem) (addr len : Nat) : List Nat :=
  (List.range len).map (fun i => mem (addr + i))

/-- The memory holds the byte list `T` at address `bufA` (the content of an
allocation).  Owner buffers are immutable, so this persists for the life of
the `SrcStr`. -/
def ownerHolds (mem : Mem) (bufA : Nat) (T : List Nat) : Prop :=
  ∀ i, i < T.length → mem (bufA + i) = T.getD i 0

instance (mem : Mem) (bufA : Nat) (T : List Nat) :
    Decidable (ownerHolds mem bufA T) := by
  unfold ownerHolds; infer_instance

/-- `pub struct SrcStr { rc: Rc<String>, ptr: *const str }`.
`rcAddr` is the address of the `Rc` allocation (`Rc::as_ptr`), `bufAddr`
the address of the owned `String`'s byte buffer, `rcData` the bytes stored
there, and `ptrAddr`/`ptrLen` the data address and length metadata of the
fat pointer `ptr`. -/
structure SrcStr where
  rcAddr : Nat
  bufAddr : Nat
  rcData : List Nat
  ptrAddr : Nat
  ptrLen : Nat
deriving DecidableEq

/-- `impl PartialEq for SrcStr`: compares `rc.as_ptr()` and the fat pointer
`ptr` (data address and length metadata) — never text content. -/
def SrcStr.eq (a b : SrcStr) : Bool :=
  a.rcAddr == b.rcAddr && (a.ptrAddr == b.ptrAddr && a.ptrLen == b.ptrLen)

/-- `impl Hash for SrcStr`: the data fed to the hasher — `rc.as_ptr()`
followed by the fat pointer `ptr` (address and length metadata).  Any
`Hasher` produces the hash as a function of this key. -/
def SrcStr.hashKey (s : SrcStr) : Nat × Nat × Nat :=
  (s.rcAddr, s.ptrAddr, s.ptrLen)

/-- `derive(Clone)`: clones the `Rc` (shares the allocation, so the same
`rcAddr`/`bufAddr`/content) and copies the `ptr` descriptor unchanged. -/
def SrcStr.clone (s : SrcStr) : SrcStr :=
  { rcAddr := s.rcAddr, bufAddr := s.bufAddr, rcData := s.rcData,
    ptrAddr := s.ptrAddr, ptrLen := s.ptrLen }

/-- `impl Deref for SrcStr`: `unsafe { &*self.ptr }` — the bytes the fat
pointer currently designates. -/
def deref (mem : Mem) (s : SrcStr) : List Nat :=
  readBytes mem s.ptrAddr s.ptrLen

/-- `str::is_char_boundary` on a byte list: position 0 is a boundary;
otherwise the byte at `i` must not be a UTF-8 continuation byte
(`b < 0x80 || b >= 0xC0`), and position `len` is a boundary. -/
def isCharBoundary (bytes : List Nat) (i : Nat) : Bool :=
  if i = 0 then true
  else
    match bytes[i]? with
    | some b => decide (b < 0x80) || decide (0xC0 ≤ b)
    | none => decide (i = bytes.length)

/-- Validity of `&s[a..b]` for a `str` with byte content `bytes`:
`a <= b` and both ends are char boundaries (Rust panics otherwise). -/
def validRange (bytes : List Nat) (a b : Nat) : Bool :=
  decide (a ≤ b) && (isCharBoundary bytes a && isCharBoundary bytes b)

/-- The byte content of the slice `bytes[a..b]`. -/
def sliceBytes (bytes : List Nat) (a b : Nat) : List Nat :=
  (bytes.drop a).take (b - a)

/-- `impl From<Rc<String>> for SrcStr` (also reached from `From<String>` and
`From<&str>`, which allocate a fresh `Rc` — here the fresh addresses are the
parameters): `ptr = (&**rc) as *const str` covers the whole buffer. -/
def fromString (rcA bufA : Nat) (T : List Nat) : SrcStr :=
  { rcAddr := rcA, bufAddr := bufA, rcData := T,
    ptrAddr := bufA, ptrLen := T.length }

/-- `SrcStr::range`: provenance recovery.  `start`/`end` are the address
range of the owner's bytes; the view address must land in `[start, end)`
(half-open: `ptr < start || ptr >= end` returns `None`), and then the
offsets `ptr - start .. ptr - start + view.len()` are returned. -/
def SrcStr.range (s : SrcStr) : Option (Nat × Nat) :=
  let start := s.bufAddr
  let len := s.rcData.length
  let stop := start + len
  let p := s.ptrAddr
  if p < start ∨ stop ≤ p then none
  else some (p - start, p - start + s.ptrLen)

/-- `SrcStr::edit`: hand the closure the current view descriptor, then set
`self.ptr` to whatever slice the closure left in the `&mut &str` slot; the
closure's result is returned alongside. -/
def SrcStr.edit {T : Type} (s : SrcStr) (f : Nat × Nat → (Nat × Nat) × T) :
    SrcStr × T :=
  let r := f (s.ptrAddr, s.ptrLen)
  ({ s with ptrAddr := r.1.1, ptrLen := r.1.2 }, r.2)

/-- `edit` with a closure that ignores the current view and assigns a fixed
slice (`*v = lit`), e.g. an unrelated string literal at `addr`/`len`. -/
def SrcStr.editSet (s : SrcStr) (addr len : Nat) : SrcStr :=
  (s.edit (fun _ => ((addr, len), ()))).1

/-- `SrcStr::try_run`: snapshot `self.ptr`, run the caller's function on
`&mut self` (modelled as an arbitrary transformer of the whole `SrcStr`),
restore the snapshot if the result is an error, and return the result. -/
def SrcStr.try_run {T E : Type} (s : SrcStr)
    (f : SrcStr → Except E T × SrcStr) : Except E T × SrcStr :=
  let ptr := (s.ptrAddr, s.ptrLen)
  let r := f s
  match r.1 with
  | Except.error _ => (r.1, { r.2 with ptrAddr := ptr.1, ptrLen := ptr.2 })
  | Except.ok _ => r

/-- `SrcStr::try_edit`: `self.try_run(|this| this.edit(f))`. -/
def SrcStr.try_edit {T E : Type} (s : SrcStr)
    (f : Nat × Nat → (Nat × Nat) × Except E T) : Except E T × SrcStr :=
  s.try_run (fun this =>
    let r := this.edit f
    (r.2, r.1))

/-- `SrcStr::sub`: `let mut s = self.clone(); s.edit(|s| *s = &s[index]); s`.
The closure slices the clone's current view, so it needs the view's bytes
for the boundary check; `none` models the slicing panic. -/
def SrcStr.sub (mem : Mem) (s : SrcStr) (a b : Nat) : Option SrcStr :=
  let c := s.clone
  if validRange (deref mem c) a b then
    some (c.edit (fun v => ((v.1 + a, b - a), ()))).1
  else none

/-- `SrcStr::src_sub`: `let mut s = self.clone();
let ptr = &s.src()[index] as *const str; s.ptr = ptr; s` — slices the owner
`String`'s full text at absolute offsets, bypassing the current view. -/
def SrcStr.src_sub (s : SrcStr) (a b : Nat) : Option SrcStr :=
  let c := s.clone
  if validRange s.rcData a b then
    some { c with ptrAddr := s.bufAddr + a, ptrLen := b - a }
  else none

/-! ## Helper lemmas -/

lemma readBytes_length (mem : Mem) (addr len : Nat) :
    (readBytes mem addr len).length = len := by
  simp [readBytes]

lemma isCharBoundary_le (T : List Nat) (i : Nat)
    (h : isCharBoundary T i = true) : i ≤ T.length := by
  unfold isCharBoundary at h
  by_cases h0 : i = 0
  · omega
  · rw [if_neg h0] at h
    rcases hT : T[i]? with _ | b
    · rw [hT] at h
      simp only [decide_eq_true_eq] at h
      omega
    · obtain ⟨hlt, _⟩ := List.getElem?_eq_some_iff.mp hT
      omega

lemma validRange_parts (T : List Nat) (a b : Nat)
    (h : validRange T a b = true) : a ≤ b ∧ b ≤ T.length := by
  unfold validRange at h
  simp only [Bool.and_eq_true, decide_eq_true_eq] at h
  exact ⟨h.1, isCharBoundary_le T b h.2.2⟩

lemma readBytes_slice (mem : Mem) (bufA : Nat) (T : List Nat) (a k : Nat)
    (h : ownerHolds mem bufA T) (hk : a + k ≤ T.length) :
    readBytes mem (bufA + a) k = (T.drop a).take k := by
  apply List.ext_getElem
  · simp only [readBytes_length, List.length_take, List.length_drop]
    omega
  · intro i h1 h2
    have hi : i < k := by
      simpa only [readBytes_length] using h1
    have hlt : a + i < T.length := by omega
    have hmem := h (a + i) hlt
    simp only [readBytes, List.getElem_map, List.getElem_range,
      List.getElem_take, List.getElem_drop]
    rw [Nat.add_assoc, hmem]
    simp [List.getD_eq_getElem?_getD, List.getElem?_eq_some_iff, hlt]

lemma deref_fromString (mem : Mem) (rcA bufA : Nat) (T : List Nat)
    (h : ownerHolds mem bufA T) :
    deref mem (fromString rcA bufA T) = T := by
  have := readBytes_slice mem bufA T 0 T.length h (by omega)
  simpa [deref, fromString] using this

lemma SrcStr.clone_eq (s : SrcStr) : s.clone = s := rfl

lemma SrcStr.eq_iff (x y : SrcStr) :
    SrcStr.eq x y = true ↔
      (x.rcAddr = y.rcAddr ∧ x.ptrAddr = y.ptrAddr ∧ x.ptrLen = y.ptrLen) := by
  unfold SrcStr.eq
  simp [Bool.and_eq_true]

/-! ## Witness fixtures: a concrete memory holding the bytes of "xyxy" at
address 100, and views into it. -/

def wMem : Mem := fun i => [120, 121, 120, 121].getD (i - 100) 0

def wStr : SrcStr := fromString 7 100 [120, 121, 120, 121]

def wB : SrcStr :=
  { rcAddr := 7, bufAddr := 100, rcData := [120, 121, 120, 121],
    ptrAddr := 100, ptrLen := 2 }

def wC : SrcStr :=
  { rcAddr := 7, bufAddr := 100, rcData := [120, 121, 120, 121],
    ptrAddr := 102, ptrLen := 2 }

def wD : SrcStr :=
  { rcAddr := 7, bufAddr := 100, rcData := [120, 121, 120, 121],
    ptrAddr := 101, ptrLen := 2 }

def wEnd : SrcStr :=
  { rcAddr := 0, bufAddr := 10, rcData := [97], ptrAddr := 11, ptrLen := 0 }

def wFail : SrcStr → Except Nat Nat × SrcStr :=
  fun s0 => (Except.error 3, s0.editSet 999 9)

def wFailEdit : Nat × Nat → (Nat × Nat) × Except Nat Nat :=
  fun _ => ((999, 9), Except.error 5)

lemma src_sub_fromString (rcA bufA : Nat) (T : List Nat) (a b : Nat)
    (hv : validRange T a b = true) :
    (fromString rcA bufA T).src_sub a b
      = some { rcAddr := rcA, bufAddr := bufA, rcData := T,
               ptrAddr := bufA + a, ptrLen := b - a } := by
  unfold SrcStr.src_sub
  simp only [SrcStr.clone_eq, fromString]
  rw [if_pos hv]

lemma sub_fromString (mem : Mem) (rcA bufA : Nat) (T : List Nat) (a b : Nat)
    (hmem : ownerHolds mem bufA T) (hv : validRange T a b = true) :
    (fromString rcA bufA T).sub mem a b
      = some { rcAddr := rcA, bufAddr := bufA, rcData := T,
               ptrAddr := bufA + a, ptrLen := b - a } := by
  have hd : deref mem (fromString rcA bufA T) = T :=
    deref_fromString mem rcA bufA T hmem
  unfold SrcStr.sub
  simp only [SrcStr.clone_eq]
  rw [hd, if_pos hv]
  rfl

lemma range_inbounds (s : SrcStr) (a l : Nat) (hp : s.ptrAddr = s.bufAddr + a)
    (hl : s.ptrLen = l) (ha : a < s.rcData.length) :
    s.range = some (a, a + l) := by
  simp only [SrcStr.range]
  rw [if_neg (by omega)]
  simp only [Option.some.injEq, Prod.mk.injEq, true_and]
  omega

/-! ## Claim theorems -/

/-- C1: equality is positional, not textual.  If `b` and `c` are both
derived via `sub` from the same `SrcStr` `a`, their texts are equal but
their view pointers differ (different address or different length), then
`b != c`; and in general `PartialEq::eq` holds exactly when the identity
pair (owner allocation address, fat view pointer) matches — text content
never enters. -/
theorem eq_is_positional (mem : Mem) (a : SrcStr) (a1 b1 a2 b2 : Nat)
    (b c x y : SrcStr)
    (hb : a.sub mem a1 b1 = some b) (hc : a.sub mem a2 b2 = some c)
    (htext : deref mem b = deref mem c)
    (hpos : b.ptrAddr ≠ c.ptrAddr ∨ b.ptrLen ≠ c.ptrLen) :
    SrcStr.eq b c = false
      ∧ (SrcStr.eq x y = true ↔
          (x.rcAddr = y.rcAddr ∧ x.ptrAddr = y.ptrAddr ∧ x.ptrLen = y.ptrLen)) := by
  refine ⟨?_, SrcStr.eq_iff x y⟩
  rw [Bool.eq_false_iff]
  intro h
  rcases (SrcStr.eq_iff b c).mp h with ⟨_, h2, h3⟩
  rcases hpos with h4 | h4
  · exact h4 h2
  · exact h4 h3

/-- C1 witness: `wStr` is "xyxy"; `sub 0 2` and `sub 2 4` both read "xy"
but sit at addresses 100 and 102, so they compare unequal. -/
theorem eq_is_positional_witness :
    SrcStr.eq wB wC = false
      ∧ (SrcStr.eq wB wC = true ↔
          (wB.rcAddr = wC.rcAddr ∧ wB.ptrAddr = wC.ptrAddr ∧
            wB.ptrLen = wC.ptrLen)) :=
  eq_is_positional wMem wStr 0 2 2 4 wB wC wB wC
    (by decide) (by decide) (by decide) (by decide)

/-- C2: rollback atomicity.  If the caller function passed to `try_run`
(an arbitrary transformer of the whole `SrcStr`) or to `try_edit` (an
arbitrary reassignment of the view slot) returns an error, then after the
call the view descriptor (`ptrAddr`, `ptrLen`) is bit-for-bit the pre-call
one, whatever intermediate mutation happened, and the error value is
returned unchanged. -/
theorem try_rollback {T E : Type} (s : SrcStr)
    (f : SrcStr → Except E T × SrcStr)
    (g : Nat × Nat → (Nat × Nat) × Except E T) (e1 e2 : E)
    (hf : (f s).1 = Except.error e1)
    (hg : (g (s.ptrAddr, s.ptrLen)).2 = Except.error e2) :
    ((s.try_run f).1 = Except.error e1
      ∧ (s.try_run f).2.ptrAddr = s.ptrAddr
      ∧ (s.try_run f).2.ptrLen = s.ptrLen)
    ∧ ((s.try_edit g).1 = Except.error e2
      ∧ (s.try_edit g).2.ptrAddr = s.ptrAddr
      ∧ (s.try_edit g).2.ptrLen = s.ptrLen) := by
  constructor
  · unfold SrcStr.try_run
    simp [hf]
  · unfold SrcStr.try_edit SrcStr.try_run SrcStr.edit
    simp [hg]

/-- C2 witness: `wFail` rewrites the view to an unrelated descriptor and
fails with error 3; `wFailEdit` likewise with error 5; the view of `wStr`
(address 100, length 4) is restored in both cases. -/
theorem try_rollback_witness :
    ((wStr.try_run wFail).1 = Except.error 3
      ∧ (wStr.try_run wFail).2.ptrAddr = wStr.ptrAddr
      ∧ (wStr.try_run wFail).2.ptrLen = wStr.ptrLen)
    ∧ ((wStr.try_edit wFailEdit).1 = Except.error 5
      ∧ (wStr.try_edit wFailEdit).2.ptrAddr = wStr.ptrAddr
      ∧ (wStr.try_edit wFailEdit).2.ptrLen = wStr.ptrLen) :=
  try_rollback wStr wFail wFailEdit 3 5 rfl rfl

/-- C4: zero-length boundary policy.  A zero-length view whose address is
exactly the owner buffer's end address fails the half-open test
`ptr >= end`, so `range` returns `none`. -/
theorem range_at_end_none (s : SrcStr) (h0 : s.ptrLen = 0)
    (he : s.ptrAddr = s.bufAddr + s.rcData.length) :
    s.range = none := by
  unfold SrcStr.range
  rw [if_pos (Or.inr (by omega))]

/-- C4 witness: owner "x" at address 10 has end address 11; the empty view
at address 11 has no provenance. -/
theorem range_at_end_none_witness : SrcStr.range wEnd = none :=
  range_at_end_none wEnd (by decide) (by decide)

/-- C8: equality implies content equality.  `a == b` compares the owner
address and the fat view pointer; equal fat pointers mean the same address
and the same length, hence dereferencing reads the identical bytes. -/
theorem eq_implies_same_text (mem : Mem) (a b : SrcStr)
    (h : SrcStr.eq a b = true) :
    a.ptrAddr = b.ptrAddr ∧ a.ptrLen = b.ptrLen
      ∧ deref mem a = deref mem b := by
  rcases (SrcStr.eq_iff a b).mp h with ⟨_, h2, h3⟩
  refine ⟨h2, h3, ?_⟩
  unfold deref
  rw [h2, h3]

/-- C8 witness: two structurally equal views trivially satisfy `eq`, and
the theorem yields equal dereferenced text. -/
theorem eq_implies_same_text_witness :
    wB.ptrAddr = wB.ptrAddr ∧ wB.ptrLen = wB.ptrLen
      ∧ deref wMem wB = deref wMem wB :=
  eq_implies_same_text wMem wB wB (by decide)

/-- C9: clone preserves identity.  `derive(Clone)` shares the `Rc`
allocation and copies the view descriptor, so a clone is `==` to the
original and feeds the identical key to any hasher. -/
theorem clone_preserves_identity (s : SrcStr) :
    SrcStr.eq s.clone s = true ∧ s.clone.hashKey = s.hashKey := by
  refine ⟨?_, rfl⟩
  rw [SrcStr.clone_eq]
  exact (SrcStr.eq_iff s s).mpr ⟨rfl, rfl, rfl⟩

/-- C10: derivation leaves the receiver unchanged.  `sub` and `src_sub`
take `&self` (in the embedding: pure functions of the receiver, which is
returned to the caller untouched) and build their result from a clone:
the derived view keeps the receiver's owner fields (`rcAddr`, `bufAddr`,
`rcData`) unchanged and differs only in the view descriptor. -/
theorem derive_frame (mem : Mem) (s s1 s2 : SrcStr) (a b c d : Nat)
    (h1 : s.sub mem a b = some s1) (h2 : s.src_sub c d = some s2) :
    (s1.rcAddr = s.rcAddr ∧ s1.bufAddr = s.bufAddr ∧ s1.rcData = s.rcData
      ∧ s1.ptrAddr = s.ptrAddr + a ∧ s1.ptrLen = b - a)
    ∧ (s2.rcAddr = s.rcAddr ∧ s2.bufAddr = s.bufAddr ∧ s2.rcData = s.rcData
      ∧ s2.ptrAddr = s.bufAddr + c ∧ s2.ptrLen = d - c) := by
  unfold SrcStr.sub at h1
  unfold SrcStr.src_sub at h2
  rw [SrcStr.clone_eq] at h1 h2
  constructor
  · by_cases hc1 : validRange (deref mem s) a b = true
    · rw [if_pos hc1] at h1
      injection h1 with h1
      rw [← h1]
      exact ⟨rfl, rfl, rfl, rfl, rfl⟩
    · rw [if_neg hc1] at h1
      cases h1
  · by_cases hc2 : validRange s.rcData c d = true
    · rw [if_pos hc2] at h2
      injection h2 with h2
      rw [← h2]
      exact ⟨rfl, rfl, rfl, rfl, rfl⟩
    · rw [if_neg hc2] at h2
      cases h2

/-- C10 witness: `wStr.sub 0 2 = wB` and `wStr.src_sub 1 3 = wD`; both
share `wStr`'s owner fields and only the view descriptors differ. -/
theorem derive_frame_witness :
    (wB.rcAddr = wStr.rcAddr ∧ wB.bufAddr = wStr.bufAddr
      ∧ wB.rcData = wStr.rcData ∧ wB.ptrAddr = wStr.ptrAddr + 0
      ∧ wB.ptrLen = 2 - 0)
    ∧ (wD.rcAddr = wStr.rcAddr ∧ wD.bufAddr = wStr.bufAddr
      ∧ wD.rcData = wStr.rcData ∧ wD.ptrAddr = wStr.bufAddr + 1
      ∧ wD.ptrLen = 3 - 1) :=
  derive_frame wMem wStr wB wD 0 2 1 3 (by decide) (by decide)

/-- C3 counterexample: on owner text "ab", the zero-length range `2..2` is
a valid boundary range inside `[0, len]`, `src_sub` succeeds, yet `range`
returns `none` rather than `some (2, 2)` — the derived view's address is
exactly the owner's end address and fails the half-open test. -/
theorem src_sub_range_cex :
    ((fromString 0 10 [97, 98]).src_sub 2 2).map SrcStr.range = some none
      ∧ validRange [97, 98] 2 2 = true := by decide

/-- C3 (amended): provenance round-trip.  For a `SrcStr` constructed from
text `T` and a valid boundary range `a..b` whose start lies strictly
before `len(T)`, `src_sub` succeeds and `range` on the result returns
`some (a, b)`.  (The start offset `len(T)` itself must be excluded: that
zero-length case lands on the owner's end address and gets `none`.) -/
theorem src_sub_range (rcA bufA : Nat) (T : List Nat) (a b : Nat)
    (hv : validRange T a b = true) (ha : a < T.length) :
    ((fromString rcA bufA T).src_sub a b).map SrcStr.range
      = some (some (a, b)) := by
  obtain ⟨hab, hbl⟩ := validRange_parts T a b hv
  rw [src_sub_fromString rcA bufA T a b hv]
  simp only [Option.map_some']
  rw [range_inbounds _ a (b - a) rfl rfl ha]
  simp only [Option.some.injEq, Prod.mk.injEq, true_and]
  omega

/-- C3 witness: owner "ab" at address 10; `src_sub 0 1` recovers `(0, 1)`. -/
theorem src_sub_range_witness :
    ((fromString 0 10 [97, 98]).src_sub 0 1).map SrcStr.range
      = some (some (0, 1)) :=
  src_sub_range 0 10 [97, 98] 0 1 (by decide) (by decide)

/-- C5: slice consistency.  For a `SrcStr` constructed from text `T` (its
view covers `T` entirely) and a valid boundary range `a..b`, `sub`
succeeds and the derived view dereferences to exactly the slice
`T[a..b]`. -/
theorem sub_slice (mem : Mem) (rcA bufA : Nat) (T : List Nat) (a b : Nat)
    (hmem : ownerHolds mem bufA T) (hv : validRange T a b = true) :
    ((fromString rcA bufA T).sub mem a b).map (deref mem)
      = some (sliceBytes T a b) := by
  obtain ⟨hab, hbl⟩ := validRange_parts T a b hv
  rw [sub_fromString mem rcA bufA T a b hmem hv]
  simp only [Option.map_some', Option.some.injEq]
  unfold deref sliceBytes
  exact readBytes_slice mem bufA T a (b - a) hmem (by omega)

/-- C5 witness: owner "xyxy" at address 100; `sub 0 2` reads the bytes of
"xy", which is the slice `T[0..2]`. -/
theorem sub_slice_witness :
    ((fromString 7 100 [120, 121, 120, 121]).sub wMem 0 2).map (deref wMem)
      = some (sliceBytes [120, 121, 120, 121] 0 2) :=
  sub_slice wMem 7 100 [120, 121, 120, 121] 0 2 (by decide) (by decide)

/-- C6 counterexample: construction does not always yield recoverable
provenance — a `SrcStr` built from the empty text has its view address
equal to the owner's end address (the buffer is empty), so `range`
returns `none` immediately after construction. -/
theorem construction_detached_cex :
    SrcStr.range (fromString 0 10 ([] : List Nat)) = none := by decide

/-- C6 (amended): detachment.  After `edit` reassigns the view to a slice
whose address lies outside the owner buffer (an unrelated literal),
`range` returns `none`; construction yields recoverable provenance
whenever the text is nonempty, and `sub` on a constructed view yields
recoverable provenance whenever the derived start offset lies strictly
before the owner's end (the excluded zero-length-at-end cases get `none`,
per the half-open boundary policy); `edit` may thus transition the view
to the detached state. -/
theorem edit_detach_provenance (mem : Mem) (rcA bufA nAddr nLen a b : Nat)
    (T : List Nat) (hmem : ownerHolds mem bufA T) (hT : T ≠ [])
    (hv : validRange T a b = true) (ha : a < T.length)
    (hdet : nAddr < bufA ∨ bufA + T.length ≤ nAddr) :
    ((fromString rcA bufA T).editSet nAddr nLen).range = none
      ∧ (fromString rcA bufA T).range = some (0, T.length)
      ∧ ((fromString rcA bufA T).sub mem a b).map SrcStr.range
          = some (some (a, b)) := by
  have hlen : 0 < T.length := List.length_pos.mpr hT
  obtain ⟨hab, hbl⟩ := validRange_parts T a b hv
  refine ⟨?_, ?_, ?_⟩
  · simp only [SrcStr.editSet, SrcStr.edit, SrcStr.range, fromString]
    rw [if_pos hdet]
  · rw [range_inbounds (fromString rcA bufA T) 0 T.length
      (by simp [fromString]) rfl hlen]
    simp
  · rw [sub_fromString mem rcA bufA T a b hmem hv]
    simp only [Option.map_some']
    rw [range_inbounds _ a (b - a) rfl rfl ha]
    simp only [Option.some.injEq, Prod.mk.injEq, true_and]
    omega

/-- C6 witness: owner "xyxy" at address 100: reassigning the view to an
unrelated slice at address 0 detaches it; the freshly constructed view has
provenance `(0, 4)`; `sub 0 2` has provenance `(0, 2)`. -/
theorem edit_detach_provenance_witness :
    ((fromString 7 100 [120, 121, 120, 121]).editSet 0 7).range = none
      ∧ (fromString 7 100 [120, 121, 120, 121]).range = some (0, 4)
      ∧ ((fromString 7 100 [120, 121, 120, 121]).sub wMem 0 2).map SrcStr.range
          = some (some (0, 2)) :=
  edit_detach_provenance wMem 7 100 0 7 0 2 [120, 121, 120, 121]
    (by decide) (by decide) (by decide) (by decide) (by decide)

/-- C7: totality of the basic operations.  In the embedding, construction
(`fromString`), `clone`, `deref`, `eq` and `hashKey` are plain total
functions (no `Option`/`Except` in their types — nothing to fail);
substantively: `deref` always returns exactly `ptrLen` bytes (the view
descriptor is always readable), `clone` is the identity on the descriptor,
a constructed view dereferences to precisely its source text (the
constructor establishes the validity invariant), equality is reflexive and
the hash key is preserved by `clone`. -/
theorem total_basic_ops (mem : Mem) (rcA bufA : Nat) (T : List Nat)
    (s : SrcStr) (hmem : ownerHolds mem bufA T) :
    (deref mem s).length = s.ptrLen
      ∧ s.clone = s
      ∧ deref mem (fromString rcA bufA T) = T
      ∧ SrcStr.eq s s = true
      ∧ s.clone.hashKey = s.hashKey :=
  ⟨readBytes_length mem s.ptrAddr s.ptrLen, SrcStr.clone_eq s,
   deref_fromString mem rcA bufA T hmem,
   (SrcStr.eq_iff s s).mpr ⟨rfl, rfl, rfl⟩, rfl⟩

/-- C7 witness: instantiated at the "xyxy" fixture. -/
theorem total_basic_ops_witness :
    (deref wMem wB).length = wB.ptrLen
      ∧ wB.clone = wB
      ∧ deref wMem (fromString 7 100 [120, 121, 120, 121])
          = [120, 121, 120, 121]
      ∧ SrcStr.eq wB wB = true
      ∧ wB.clone.hashKey = wB.hashKey :=
  total_basic_ops wMem 7 100 [120, 121, 120, 121] wB (by decide)

end Srcstr
